import Mathlib

/-!
Shallow embedding of the RAG orchestration core
(`src/core/rag-application.ts`): data model, ingestion pipeline
(`batchLoadChunks` / `addLoader`), deletion (`deleteLoader`,
`deleteAllEmbeddings`) and the retrieval pipeline (`getEmbeddings`,
`getContext`, `query`), together with theorems settling the spec claims.

External collaborators (embedding provider, vector store, cache, reranker,
generation model) are modelled through an explicit environment `Env`
following the interface contracts of the spec; the orchestrator logic
itself is translated line by line from `rag-application.ts`.
Scores are modelled as rationals (the code manipulates them only through
comparisons and subtraction in a sort comparator).
-/

set_option maxRecDepth 4000


namespace RagApp

/-- Metadata attached to a raw loader chunk (`map<string,any>`): the
`source` key (used by `query` for citations) plus any other entries. -/
structure Metadata where
  source : String
  extra : List (String × String)
  deriving DecidableEq, Repr

/-- Metadata after `batchLoadChunks` formatting: the raw metadata spread
together with the stamped `uniqueLoaderId` and `id` fields
(`{...chunk.metadata, uniqueLoaderId, id}`). -/
structure FormattedMetadata where
  base : Metadata
  uniqueLoaderId : String
  id : String
  deriving DecidableEq, Repr

/-- A raw chunk produced by a loader (`LoaderChunk`). -/
structure LoaderChunk where
  pageContent : String
  metadata : Metadata
  deriving DecidableEq, Repr

/-- A formatted chunk (`Chunk`), ready for embedding. -/
structure Chunk where
  pageContent : String
  metadata : FormattedMetadata
  deriving DecidableEq, Repr

/-- `InsertChunkData`: a formatted chunk together with its embedding
vector, as handed to `vectorDb.insertChunks`. -/
structure InsertChunkData where
  pageContent : String
  vector : List Rat
  metadata : FormattedMetadata
  deriving DecidableEq, Repr

/-- `ExtractChunkData`: a vector-store similarity-search result. -/
structure ExtractChunkData where
  pageContent : String
  metadata : FormattedMetadata
  score : Rat
  deriving DecidableEq, Repr

/-- A content loader (`BaseLoader`), abstracted to what the orchestrator
reads from it: its unique id, the chunk sequence `getChunks` yields, and
the `canIncrementallyLoad` capability flag. -/
structure Loader where
  uniqueId : String
  chunks : List LoaderChunk
  canIncrementallyLoad : Bool
  deriving DecidableEq, Repr

/-- Return value of `addLoader`. -/
structure AddLoaderReturn where
  entriesAdded : Nat
  uniqueId : String
  deriving DecidableEq, Repr

/-- The environment of external collaborators and configuration constants
the orchestrator is built with.

`batchSize` — Modelled from the spec: `DEFAULT_INSERT_BATCH_SIZE` lives in
`src/global/constants.ts`, which is not part of the sources; the spec
describes it only as "a configured batch constant", so it is kept as an
arbitrary constant here.

`embed`/`embedQuery` model the embedding provider (`embedDocuments` is its
pointwise lift), `similaritySearch` the vector store's search response,
`deleteOk` whether the store reports success for `deleteKeys` on a given
loader id, `reranker` the optional reranker, `cleanString` the external
string-cleaning utility, and `modelQuery` the generation model. -/
structure Env where
  batchSize : Nat
  searchResultCount : Nat
  embeddingRelevanceCutOff : Rat
  queryTemplate : String
  embed : String → List Rat
  embedQuery : String → List Rat
  similaritySearch : List Rat → Nat → List ExtractChunkData
  deleteOk : String → Bool
  reranker : Option (String → List ExtractChunkData → List ExtractChunkData)
  cleanString : String → String
  modelQuery : String → String → List ExtractChunkData → Option String → String

/-- Modelled from the spec: the cache collaborator persists one
`LoaderRecord { uniqueLoaderId, chunkCount }` per loader id; we model it
as an association list from loader id to chunk count. -/
abbrev Cache := List (String × Nat)

/-- `cache.hasLoader(loaderId)`. -/
def cacheHasLoader (c : Cache) (loaderId : String) : Bool :=
  c.any (fun p => p.1 == loaderId)

/-- `cache.getLoader(loaderId).chunkCount`. -/
def cacheGetLoader (c : Cache) (loaderId : String) : Option Nat :=
  (c.find? (fun p => p.1 == loaderId)).map (fun p => p.2)

/-- Modelled from the spec: `cache.addLoader(loaderId, count)` records or
updates the `LoaderRecord` for that id (upsert). -/
def cacheAddLoader (c : Cache) (loaderId : String) (count : Nat) : Cache :=
  c.filter (fun p => p.1 ≠ loaderId) ++ [(loaderId, count)]

/-- `cache.deleteLoader(loaderId)` removes the record. -/
def cacheDeleteLoader (c : Cache) (loaderId : String) : Cache :=
  c.filter (fun p => p.1 ≠ loaderId)

/-- The orchestrator's mutable state: the vector store's contents (the
list of inserted chunks), the optional cache contents (`none` = no cache
configured), and the tracked loader list `this.loaders`. -/
structure AppState where
  db : List InsertChunkData
  cache : Option Cache
  loaders : List Loader
  deriving Repr

/-- `vectorDb.deleteKeys(uniqueLoaderId)`: the store collaborator removes
every entry stamped with that loader id and reports success; on failure it
reports `false` (entries untouched). -/
def dbDeleteKeys (env : Env) (db : List InsertChunkData) (uniqueLoaderId : String) :
    List InsertChunkData × Bool :=
  if env.deleteOk uniqueLoaderId then
    (db.filter (fun c => c.metadata.uniqueLoaderId ≠ uniqueLoaderId), true)
  else (db, false)

/-- `getChunkUniqueId(loaderUniqueId, incrementId)`:
`` `${loaderUniqueId}_${incrementId}` ``. -/
def getChunkUniqueId (loaderUniqueId : String) (incrementId : Nat) : String :=
  loaderUniqueId ++ "_" ++ toString incrementId

/-- The embedded form of a formatted chunk: `batchLoadEmbeddings` zips
`embedDocuments`' vectors back onto the chunks, building `InsertChunkData`
with the same `pageContent` and `metadata`. -/
def toInsertData (env : Env) (c : Chunk) : InsertChunkData :=
  { pageContent := c.pageContent
    vector := env.embed c.pageContent
    metadata := c.metadata }

/-- `batchLoadEmbeddings(uniqueId, formattedChunks)`: returns 0 on an
empty batch; otherwise embeds the batch and calls
`vectorDb.insertChunks`, which under the vector-store contract appends
the chunks and returns the number inserted. Result: (new store contents,
reported insert count). -/
def batchLoadEmbeddings (env : Env) (formattedChunks : List Chunk)
    (db : List InsertChunkData) : List InsertChunkData × Nat :=
  if formattedChunks.length = 0 then (db, 0)
  else
    let embedChunks := formattedChunks.map (toInsertData env)
    (db ++ embedChunks, embedChunks.length)

/-- The loop state of `batchLoadChunks`:
`let i = 0, batchSize = 0, newInserts = 0, formattedChunks = []`, plus the
vector store contents threaded through the inserts. -/
structure BatchState where
  i : Nat
  batchSize : Nat
  newInserts : Nat
  formattedChunks : List Chunk
  db : List InsertChunkData

/-- Formatting of one chunk inside the `for await` loop of
`batchLoadChunks`: stamp `uniqueLoaderId` and the deterministic id
`getChunkUniqueId(uniqueId, i)` into the metadata. -/
def formatChunk (uniqueId : String) (i : Nat) (chunk : LoaderChunk) : Chunk :=
  { pageContent := chunk.pageContent
    metadata :=
      { base := chunk.metadata
        uniqueLoaderId := uniqueId
        id := getChunkUniqueId uniqueId i } }

/-- One iteration of the `for await` loop of `batchLoadChunks`:
increment `batchSize`, push the formatted chunk, and flush the batch
through `batchLoadEmbeddings` when `batchSize % DEFAULT_INSERT_BATCH_SIZE
=== 0`. -/
def batchLoadStep (env : Env) (uniqueId : String) (s : BatchState)
    (chunk : LoaderChunk) : BatchState :=
  let batchSize := s.batchSize + 1
  let formattedChunks := s.formattedChunks ++ [formatChunk uniqueId s.i chunk]
  if batchSize % env.batchSize == 0 then
    let r := batchLoadEmbeddings env formattedChunks s.db
    { i := s.i + 1, batchSize := 0, newInserts := s.newInserts + r.2
      formattedChunks := [], db := r.1 }
  else
    { i := s.i + 1, batchSize := batchSize, newInserts := s.newInserts
      formattedChunks := formattedChunks, db := s.db }

/-- Return value of `batchLoadChunks`: the store contents after the final
flush, `newInserts`, and the `formattedChunks` variable as it stands at
the `return` (the final partial batch — it is reset to `[]` at every
mid-stream flush and not by the final `batchLoadEmbeddings` call). -/
structure BatchLoadResult where
  db : List InsertChunkData
  newInserts : Nat
  formattedChunks : List Chunk

/-- `batchLoadChunks(uniqueId, incrementalGenerator)`: consume the chunk
sequence through `batchLoadStep`, then flush the remaining partial batch
and return `{ newInserts, formattedChunks }`. -/
def batchLoadChunks (env : Env) (uniqueId : String) (chunks : List LoaderChunk)
    (db : List InsertChunkData) : BatchLoadResult :=
  let s := chunks.foldl (batchLoadStep env uniqueId)
    { i := 0, batchSize := 0, newInserts := 0, formattedChunks := [], db := db }
  let r := batchLoadEmbeddings env s.formattedChunks s.db
  { db := r.1, newInserts := s.newInserts + r.2, formattedChunks := s.formattedChunks }

/-- `incrementalLoader(uniqueId, incrementalGenerator)`: the handler for an
`incrementalChunkAvailable` notification re-runs `batchLoadChunks` on the
fresh sequence (discarding the returned `formattedChunks`). -/
def incrementalLoader (env : Env) (uniqueId : String) (chunks : List LoaderChunk)
    (db : List InsertChunkData) : List InsertChunkData × Nat :=
  let r := batchLoadChunks env uniqueId chunks db
  (r.db, r.newInserts)

/-- `deleteLoader(uniqueLoaderId, areYouSure)`. Returns the new state, the
boolean result, and the list of `console.warn` messages emitted. -/
def deleteLoader (env : Env) (st : AppState) (uniqueLoaderId : String)
    (areYouSure : Bool) : AppState × Bool × List String :=
  if !areYouSure then
    (st, false,
      ["Delete embeddings from loader called without confirmation. No action taken."])
  else
    let r := dbDeleteKeys env st.db uniqueLoaderId
    let cache' := match st.cache with
      | some c => if r.2 then some (cacheDeleteLoader c uniqueLoaderId) else some c
      | none => none
    ({ db := r.1, cache := cache'
       loaders := st.loaders.filter (fun x => x.uniqueId ≠ uniqueLoaderId) },
     r.2, [])

/-- `deleteAllEmbeddings(areYouSure)`: on confirmation, `vectorDb.reset()`
empties the store (cache and tracked loaders untouched). -/
def deleteAllEmbeddings (st : AppState) (areYouSure : Bool) :
    AppState × Bool × List String :=
  if !areYouSure then
    (st, false, ["Reset embeddings called without confirmation. No action taken."])
  else
    ({ st with db := [] }, true, [])

/-- `addLoader(loader)`: the loader-registration procedure — cache-driven
re-ingestion check (delete previous keys when a record with positive count
exists), batch load, cache-record update with
`formattedChunks.length`, and replacement of any tracked loader with the
same id. -/
def addLoader (env : Env) (st : AppState) (loader : Loader) :
    AppState × AddLoaderReturn :=
  let uniqueId := loader.uniqueId
  let chunks := loader.chunks
  let st1 := match st.cache with
    | some c =>
      if cacheHasLoader c uniqueId then
        let previousChunkCount := (cacheGetLoader c uniqueId).getD 0
        if previousChunkCount > 0 then (deleteLoader env st uniqueId true).1 else st
      else st
    | none => st
  let r := batchLoadChunks env uniqueId chunks st1.db
  let st2 : AppState := { st1 with db := r.db }
  let st3 : AppState := match st2.cache with
    | some c =>
      { st2 with cache := some (cacheAddLoader c uniqueId r.formattedChunks.length) }
    | none => st2
  ({ st3 with
      loaders := st3.loaders.filter (fun x => x.uniqueId ≠ uniqueId) ++ [loader] },
   { entriesAdded := r.newInserts, uniqueId := uniqueId })

/-- Stable insertion into a list sorted by score descending: the element
goes after every element of score ≥ its own — the behaviour of the
(ES2019-stable) `sort((a, b) => b.score - a.score)`. -/
def insertDesc (x : ExtractChunkData) : List ExtractChunkData → List ExtractChunkData
  | [] => [x]
  | y :: ys => if x.score ≤ y.score then y :: insertDesc x ys else x :: y :: ys

/-- Stable sort by score descending, modelling
`.sort((a, b) => b.score - a.score)`. -/
def sortByScoreDesc : List ExtractChunkData → List ExtractChunkData
  | [] => []
  | x :: xs => insertDesc x (sortByScoreDesc xs)

/-- `getEmbeddings(cleanQuery)`: embed the query, over-fetch
`searchResultCount + 10` results, optionally rerank, then
filter (`score > embeddingRelevanceCutOff`), sort descending, and
truncate to `searchResultCount`. -/
def getEmbeddings (env : Env) (cleanQuery : String) : List ExtractChunkData :=
  let queryEmbedded := env.embedQuery cleanQuery
  let unfilteredResultSet := env.similaritySearch queryEmbedded (env.searchResultCount + 10)
  let unfilteredResultSet := match env.reranker with
    | some rr => rr cleanQuery unfilteredResultSet
    | none => unfilteredResultSet
  (sortByScoreDesc
      (unfilteredResultSet.filter (fun r => r.score > env.embeddingRelevanceCutOff))).take
    env.searchResultCount

/-- One `Map.set(k, v)` step of the JavaScript `Map` built by
`getContext`: an existing key keeps its position but its value is
replaced; a new key is appended. -/
def jsMapSet (m : List (String × ExtractChunkData)) (k : String)
    (v : ExtractChunkData) : List (String × ExtractChunkData) :=
  if (m.map Prod.fst).contains k then
    m.map (fun p => if p.1 == k then (p.1, v) else p)
  else m ++ [(k, v)]

/-- `[...new Map(l.map(item => [item.pageContent, item])).values()]`. -/
def jsMapValuesDedup (l : List ExtractChunkData) : List ExtractChunkData :=
  (l.foldl (fun m item => jsMapSet m item.pageContent item) []).map (fun p => p.2)

/-- `getContext(query)`: clean the query, run the retrieval pipeline, and
deduplicate by `pageContent` through a JavaScript `Map`. -/
def getContext (env : Env) (query : String) : List ExtractChunkData :=
  let cleanQuery := env.cleanString query
  let rawContext := getEmbeddings env cleanQuery
  jsMapValuesDedup rawContext

/-- `[...new Set(l)]`: first-occurrence deduplication preserving insertion
order. -/
def jsSetDedup (l : List String) : List String :=
  l.foldl (fun acc x => if acc.contains x then acc else acc ++ [x]) []

/-- Result of `query`. -/
structure QueryResult where
  result : String
  sources : List String
  deriving DecidableEq, Repr

/-- `query(userQuery, conversationId?)`: assemble the context, derive the
distinct `metadata.source` values, and delegate to the generation
model. -/
def appQuery (env : Env) (userQuery : String) (conversationId : Option String) :
    QueryResult :=
  let context := getContext env userQuery
  let sources := jsSetDedup (context.map (fun chunk => chunk.metadata.base.source))
  { sources := sources
    result := env.modelQuery env.queryTemplate userQuery context conversationId }

/-- The constructor's inputs, as read off the builder: the optional cache,
the (possibly missing) generation model and vector store, and the
configured loaders. A missing model or store is `none` (the code checks
`!this.model` / `!this.vectorDb`). -/
structure Builder where
  cache : Option Cache
  model : Option String
  vectorDb : Option (List InsertChunkData)
  loaders : List Loader

/-- The `RAGApplication` constructor: after the synchronous field
assignments it throws `SyntaxError('Model not set')` when no generation
model was supplied, then `SyntaxError('VectorDb not set')` when no vector
store was supplied; otherwise the orchestrator state is built. -/
def ragApplicationConstructor (b : Builder) : Except String AppState :=
  if b.model.isNone then .error "Model not set"
  else if b.vectorDb.isNone then .error "VectorDb not set"
  else .ok { db := b.vectorDb.getD [], cache := b.cache, loaders := b.loaders }

/-! ### Characterization of the batch-load loop -/

/-- The sequence of formatted chunks produced by `batchLoadChunks` when
the loop counter starts at `i0`: position `j` gets id
`getChunkUniqueId uid (i0 + j)`. -/
def formatSeq (uniqueId : String) (i0 : Nat) : List LoaderChunk → List Chunk
  | [] => []
  | c :: cs => formatChunk uniqueId i0 c :: formatSeq uniqueId (i0 + 1) cs

theorem formatSeq_length (uid : String) (i0 : Nat) (l : List LoaderChunk) :
    (formatSeq uid i0 l).length = l.length := by
  induction l generalizing i0 with
  | nil => rfl
  | cons c cs ih => simp [formatSeq, ih]

theorem formatSeq_map_id (uid : String) (i0 : Nat) (l : List LoaderChunk) :
    (formatSeq uid i0 l).map (fun c => c.metadata.id)
      = (List.range l.length).map (fun j => getChunkUniqueId uid (i0 + j)) := by
  induction l generalizing i0 with
  | nil => rfl
  | cons c cs ih =>
    simp only [formatSeq, List.map_cons, formatChunk, ih (i0 + 1), List.length_cons,
      List.range_succ_eq_map, List.map_map]
    refine List.cons_eq_cons.mpr ⟨by simp, ?_⟩
    apply List.map_congr_left
    intro j hj
    simp only [Function.comp_apply]
    congr 1
    omega

theorem batchLoadEmbeddings_eq (env : Env) (fc : List Chunk)
    (db : List InsertChunkData) :
    batchLoadEmbeddings env fc db = (db ++ fc.map (toInsertData env), fc.length) := by
  unfold batchLoadEmbeddings
  by_cases h : fc.length = 0
  · simp [h, List.length_eq_zero.mp h]
  · simp [h]

theorem batchLoadStep_flush (env : Env) (uid : String) (s : BatchState)
    (chunk : LoaderChunk) (h : ((s.batchSize + 1) % env.batchSize == 0) = true) :
    batchLoadStep env uid s chunk =
      { i := s.i + 1, batchSize := 0
        newInserts := s.newInserts + (s.formattedChunks.length + 1)
        formattedChunks := []
        db := s.db ++ (s.formattedChunks ++ [formatChunk uid s.i chunk]).map
          (toInsertData env) } := by
  simp [batchLoadStep, h, batchLoadEmbeddings_eq]

theorem batchLoadStep_noflush (env : Env) (uid : String) (s : BatchState)
    (chunk : LoaderChunk) (h : ((s.batchSize + 1) % env.batchSize == 0) = false) :
    batchLoadStep env uid s chunk =
      { i := s.i + 1, batchSize := s.batchSize + 1, newInserts := s.newInserts
        formattedChunks := s.formattedChunks ++ [formatChunk uid s.i chunk]
        db := s.db } := by
  simp [batchLoadStep, h]

/-- Invariant of the `batchLoadChunks` loop: the counter advances by one
per chunk, every consumed chunk is either already flushed
(`newInserts`) or pending (`formattedChunks`), and the store extended
with the pending batch always equals the starting store extended with all
chunks formatted so far. -/
theorem batchLoad_foldl (env : Env) (uid : String) (chunks : List LoaderChunk)
    (s : BatchState) :
    (chunks.foldl (batchLoadStep env uid) s).i = s.i + chunks.length ∧
    (chunks.foldl (batchLoadStep env uid) s).newInserts
        + (chunks.foldl (batchLoadStep env uid) s).formattedChunks.length
      = s.newInserts + s.formattedChunks.length + chunks.length ∧
    (chunks.foldl (batchLoadStep env uid) s).db
        ++ ((chunks.foldl (batchLoadStep env uid) s).formattedChunks.map
          (toInsertData env))
      = s.db ++ s.formattedChunks.map (toInsertData env)
          ++ (formatSeq uid s.i chunks).map (toInsertData env) := by
  induction chunks generalizing s with
  | nil => simp [formatSeq]
  | cons c cs ih =>
    simp only [List.foldl_cons, formatSeq, List.map_cons]
    cases hb : ((s.batchSize + 1) % env.batchSize == 0) with
    | true =>
      rw [batchLoadStep_flush env uid s c hb]
      obtain ⟨h1, h2, h3⟩ := ih
        { i := s.i + 1, batchSize := 0
          newInserts := s.newInserts + (s.formattedChunks.length + 1)
          formattedChunks := []
          db := s.db ++ (s.formattedChunks ++ [formatChunk uid s.i c]).map
            (toInsertData env) }
      dsimp only at h1 h2 h3
      simp only [List.length_nil, List.length_cons, List.length_append] at h2 ⊢
      refine ⟨by omega, by omega, ?_⟩
      rw [h3]
      simp [List.append_assoc]
    | false =>
      rw [batchLoadStep_noflush env uid s c hb]
      obtain ⟨h1, h2, h3⟩ := ih
        { i := s.i + 1, batchSize := s.batchSize + 1, newInserts := s.newInserts
          formattedChunks := s.formattedChunks ++ [formatChunk uid s.i c]
          db := s.db }
      dsimp only at h1 h2 h3
      simp only [List.length_nil, List.length_cons, List.length_append] at h2 ⊢
      refine ⟨by omega, by omega, ?_⟩
      rw [h3]
      simp [List.append_assoc]

/-- The store after `batchLoadChunks` is the starting store with the whole
formatted-and-embedded chunk sequence appended. -/
theorem batchLoadChunks_db (env : Env) (uid : String) (chunks : List LoaderChunk)
    (db : List InsertChunkData) :
    (batchLoadChunks env uid chunks db).db
      = db ++ (formatSeq uid 0 chunks).map (toInsertData env) := by
  obtain ⟨h1, h2, h3⟩ := batchLoad_foldl env uid chunks
    { i := 0, batchSize := 0, newInserts := 0, formattedChunks := [], db := db }
  unfold batchLoadChunks
  simp only [batchLoadEmbeddings_eq]
  simpa using h3

/-- `newInserts` reported by `batchLoadChunks` is the total number of
chunks consumed. -/
theorem batchLoadChunks_newInserts (env : Env) (uid : String)
    (chunks : List LoaderChunk) (db : List InsertChunkData) :
    (batchLoadChunks env uid chunks db).newInserts = chunks.length := by
  obtain ⟨h1, h2, h3⟩ := batchLoad_foldl env uid chunks
    { i := 0, batchSize := 0, newInserts := 0, formattedChunks := [], db := db }
  unfold batchLoadChunks
  simp only [batchLoadEmbeddings_eq]
  simp at h2
  omega

theorem batchLoadChunks_db_length (env : Env) (uid : String)
    (chunks : List LoaderChunk) (db : List InsertChunkData) :
    (batchLoadChunks env uid chunks db).db.length = db.length + chunks.length := by
  rw [batchLoadChunks_db]
  simp [formatSeq_length]

/-! ### Sorting lemmas for the retrieval pipeline -/

theorem mem_insertDesc (x a : ExtractChunkData) (l : List ExtractChunkData) :
    a ∈ insertDesc x l ↔ a = x ∨ a ∈ l := by
  induction l with
  | nil => simp [insertDesc]
  | cons y ys ih =>
    simp only [insertDesc]
    by_cases h : x.score ≤ y.score
    · simp only [if_pos h, List.mem_cons, ih]
      tauto
    · simp only [if_neg h, List.mem_cons]

theorem pairwise_insertDesc (x : ExtractChunkData) (l : List ExtractChunkData)
    (hl : l.Pairwise (fun a b => b.score ≤ a.score)) :
    (insertDesc x l).Pairwise (fun a b => b.score ≤ a.score) := by
  induction l with
  | nil => simp [insertDesc]
  | cons y ys ih =>
    obtain ⟨hy, hys⟩ := List.pairwise_cons.mp hl
    simp only [insertDesc]
    by_cases h : x.score ≤ y.score
    · rw [if_pos h]
      refine List.pairwise_cons.mpr ⟨?_, ih hys⟩
      intro b hb
      rcases (mem_insertDesc x b ys).mp hb with rfl | hb
      · exact h
      · exact hy b hb
    · rw [if_neg h]
      push_neg at h
      refine List.pairwise_cons.mpr ⟨?_, hl⟩
      intro b hb
      rcases List.mem_cons.mp hb with rfl | hb
      · exact le_of_lt h
      · exact (hy b hb).trans (le_of_lt h)

theorem mem_sortByScoreDesc (a : ExtractChunkData) (l : List ExtractChunkData) :
    a ∈ sortByScoreDesc l ↔ a ∈ l := by
  induction l with
  | nil => simp [sortByScoreDesc]
  | cons x xs ih =>
    simp only [sortByScoreDesc, mem_insertDesc, ih, List.mem_cons]

theorem pairwise_sortByScoreDesc (l : List ExtractChunkData) :
    (sortByScoreDesc l).Pairwise (fun a b => b.score ≤ a.score) := by
  induction l with
  | nil => simp [sortByScoreDesc]
  | cons x xs ih => exact pairwise_insertDesc x _ ih

/-! ### Lemmas about the JavaScript `Set` model -/

theorem jsSetFold_mem (l acc : List String) (x : String) :
    x ∈ l.foldl (fun acc x => if acc.contains x then acc else acc ++ [x]) acc
      ↔ x ∈ acc ∨ x ∈ l := by
  induction l generalizing acc with
  | nil => simp
  | cons y ys ih =>
    simp only [List.foldl_cons]
    by_cases h : acc.contains y
    · have hy : y ∈ acc := by simpa [List.contains] using h
      rw [if_pos h, ih]
      simp only [List.mem_cons]
      constructor
      · tauto
      · rintro (hx | rfl | hx)
        · exact Or.inl hx
        · exact Or.inl hy
        · exact Or.inr hx
    · rw [if_neg h, ih]
      simp only [List.mem_append, List.mem_singleton, List.mem_cons]
      tauto

theorem jsSetFold_nodup (l : List String) (acc : List String) (h : acc.Nodup) :
    (l.foldl (fun acc x => if acc.contains x then acc else acc ++ [x]) acc).Nodup := by
  induction l generalizing acc with
  | nil => exact h
  | cons y ys ih =>
    simp only [List.foldl_cons]
    by_cases hc : acc.contains y
    · rw [if_pos hc]
      exact ih acc h
    · rw [if_neg hc]
      refine ih _ ?_
      rw [List.nodup_append]
      refine ⟨h, List.nodup_singleton y, ?_⟩
      intro a ha hb
      rw [List.mem_singleton] at hb
      subst hb
      exact hc (by simpa [List.contains] using ha)

theorem jsSetFold_sublist (l acc : List String) :
    List.Sublist
      (l.foldl (fun acc x => if acc.contains x then acc else acc ++ [x]) acc)
      (acc ++ l) := by
  induction l generalizing acc with
  | nil => simp
  | cons y ys ih =>
    simp only [List.foldl_cons]
    by_cases h : acc.contains y
    · rw [if_pos h]
      refine (ih acc).trans ?_
      refine (List.append_sublist_append_left acc).mpr ?_
      exact List.sublist_cons_self y ys
    · rw [if_neg h]
      refine (ih (acc ++ [y])).trans ?_
      rw [List.append_assoc]
      exact List.Sublist.refl _

theorem jsSetDedup_mem (l : List String) (x : String) :
    x ∈ jsSetDedup l ↔ x ∈ l := by
  unfold jsSetDedup
  rw [jsSetFold_mem]
  simp

theorem jsSetDedup_nodup (l : List String) : (jsSetDedup l).Nodup :=
  jsSetFold_nodup l [] List.nodup_nil

theorem jsSetDedup_sublist (l : List String) : List.Sublist (jsSetDedup l) l := by
  have h := jsSetFold_sublist l []
  rw [List.nil_append] at h
  exact h

/-! ### Lemmas about the JavaScript `Map` deduplication of `getContext` -/

theorem getLast?_cons_of_ne_nil {α : Type} (a : α) {l : List α} (h : l ≠ []) :
    (a :: l).getLast? = l.getLast? := by
  cases l with
  | nil => exact absurd rfl h
  | cons b bs => exact List.getLast?_cons_cons

/-- Every entry of the map built by `getContext` keys its value by the
value's own `pageContent`. -/
theorem jsMapFold_fst_eq (l : List ExtractChunkData)
    (m : List (String × ExtractChunkData))
    (hm : ∀ p ∈ m, p.1 = p.2.pageContent) :
    ∀ p ∈ l.foldl (fun m item => jsMapSet m item.pageContent item) m,
      p.1 = p.2.pageContent := by
  induction l generalizing m with
  | nil => exact hm
  | cons x xs ih =>
    simp only [List.foldl_cons]
    refine ih _ ?_
    intro p hp
    unfold jsMapSet at hp
    by_cases h : (m.map Prod.fst).contains x.pageContent = true
    · rw [if_pos h] at hp
      obtain ⟨q, hq, rfl⟩ := List.mem_map.mp hp
      by_cases hk : (q.1 == x.pageContent) = true
      · simp only [if_pos hk]
        exact eq_of_beq hk
      · simp only [if_neg hk]
        exact hm q hq
    · rw [if_neg h] at hp
      rcases List.mem_append.mp hp with hq | hq
      · exact hm p hq
      · rw [List.mem_singleton] at hq
        subst hq
        rfl

/-- The key list of the map built by `getContext` evolves exactly like the
first-occurrence fold of the JavaScript `Set` model, applied to the
`pageContent` projection. -/
theorem jsMapFold_keys (l : List ExtractChunkData)
    (m : List (String × ExtractChunkData)) :
    (l.foldl (fun m item => jsMapSet m item.pageContent item) m).map Prod.fst
      = (l.map (fun c => c.pageContent)).foldl
          (fun acc x => if acc.contains x then acc else acc ++ [x])
          (m.map Prod.fst) := by
  induction l generalizing m with
  | nil => rfl
  | cons x xs ih =>
    simp only [List.foldl_cons, List.map_cons]
    rw [ih]
    congr 1
    unfold jsMapSet
    by_cases h : (m.map Prod.fst).contains x.pageContent = true
    · rw [if_pos h, if_pos h, List.map_map]
      apply List.map_congr_left
      intro q hq
      by_cases hk : (q.1 == x.pageContent) = true
      · simp [Function.comp, hk]
      · simp [Function.comp, hk]
    · rw [if_neg h, if_neg h]
      simp

/-- The value stored in the map built by `getContext` under key `k` is the
last element of the input whose `pageContent` is `k` (JavaScript
`Map.set` overwrites the value of an existing key). -/
theorem jsMapFold_values (l : List ExtractChunkData)
    (m : List (String × ExtractChunkData)) (k : String) (v : ExtractChunkData)
    (hv : (k, v) ∈ l.foldl (fun m item => jsMapSet m item.pageContent item) m) :
    (l.filter (fun e => e.pageContent == k)).getLast? = some v
      ∨ ((k, v) ∈ m ∧ l.filter (fun e => e.pageContent == k) = []) := by
  induction l generalizing m with
  | nil =>
    right
    exact ⟨hv, rfl⟩
  | cons x xs ih =>
    simp only [List.foldl_cons] at hv
    rcases ih _ hv with h | ⟨hmem, hnil⟩
    · left
      by_cases hx : (x.pageContent == k) = true
      · rw [List.filter_cons, if_pos hx]
        have hne : xs.filter (fun e => e.pageContent == k) ≠ [] := by
          intro hnil2
          rw [hnil2] at h
          simp at h
        rw [getLast?_cons_of_ne_nil x hne]
        exact h
      · rw [List.filter_cons, if_neg hx]
        exact h
    · unfold jsMapSet at hmem
      by_cases hany : (m.map Prod.fst).contains x.pageContent = true
      · rw [if_pos hany] at hmem
        obtain ⟨q, hq, heq⟩ := List.mem_map.mp hmem
        by_cases hk : (q.1 == x.pageContent) = true
        · rw [if_pos hk] at heq
          obtain ⟨hk1, hv1⟩ := Prod.mk.inj heq
          left
          have hxc : (x.pageContent == k) = true := by
            rw [beq_iff_eq, ← hk1]
            exact (eq_of_beq hk).symm
          rw [List.filter_cons, if_pos hxc, hnil]
          simpa using hv1
        · rw [if_neg hk] at heq
          subst heq
          right
          refine ⟨hq, ?_⟩
          have hxk : (x.pageContent == k) ≠ true := by
            intro hxkt
            apply hk
            rw [beq_iff_eq] at hxkt ⊢
            exact hxkt.symm
          rw [List.filter_cons, if_neg hxk]
          exact hnil
      · rw [if_neg hany] at hmem
        rcases List.mem_append.mp hmem with hq | hq
        · right
          refine ⟨hq, ?_⟩
          have hxk : (x.pageContent == k) ≠ true := by
            intro hxkt
            rw [beq_iff_eq] at hxkt
            apply hany
            have hkm : k ∈ m.map Prod.fst := List.mem_map.mpr ⟨(k, v), hq, rfl⟩
            rw [hxkt]
            simpa [List.contains] using hkm
          rw [List.filter_cons, if_neg hxk]
          exact hnil
        · rw [List.mem_singleton] at hq
          obtain ⟨hk1, hv1⟩ := Prod.mk.inj hq
          left
          have hxc : (x.pageContent == k) = true := by
            rw [beq_iff_eq]
            exact hk1.symm
          rw [List.filter_cons, if_pos hxc, hnil]
          simpa using hv1.symm

/-- The deduplicated list's `pageContent` projection is the
first-occurrence deduplication of the input's `pageContent`
projection. -/
theorem jsMapValuesDedup_pageContents (l : List ExtractChunkData) :
    (jsMapValuesDedup l).map (fun c => c.pageContent)
      = jsSetDedup (l.map (fun c => c.pageContent)) := by
  unfold jsMapValuesDedup jsSetDedup
  have hkeys := jsMapFold_keys l []
  simp only [List.map_nil] at hkeys
  have hfst := jsMapFold_fst_eq l [] (by simp)
  rw [List.map_map, ← hkeys]
  apply List.map_congr_left
  intro p hp
  simp only [Function.comp_apply]
  exact (hfst p hp).symm

/-- Every element of the deduplicated list is the last element of the
input sharing its `pageContent`. -/
theorem jsMapValuesDedup_last (l : List ExtractChunkData) (c : ExtractChunkData)
    (hc : c ∈ jsMapValuesDedup l) :
    (l.filter (fun e => e.pageContent == c.pageContent)).getLast? = some c := by
  unfold jsMapValuesDedup at hc
  obtain ⟨p, hp, rfl⟩ := List.mem_map.mp hc
  have hfst := jsMapFold_fst_eq l [] (by simp) p hp
  have hval := jsMapFold_values l [] p.1 p.2 (by simpa using hp)
  rcases hval with h | ⟨habs, _⟩
  · rw [← hfst]
    exact h
  · simp at habs

/-! ### Ingestion-level lemmas -/

theorem cacheGetLoader_hasLoader (c : Cache) (id : String) (P : Nat)
    (h : cacheGetLoader c id = some P) : cacheHasLoader c id = true := by
  unfold cacheGetLoader at h
  unfold cacheHasLoader
  cases hf : c.find? (fun p => p.1 == id) with
  | none => rw [hf] at h; simp at h
  | some q =>
    have hq := List.find?_some hf
    have hmem := List.mem_of_find?_eq_some hf
    exact List.any_eq_true.mpr ⟨q, hmem, hq⟩

theorem db_filter_length (l : List InsertChunkData) (uid : String) :
    (l.filter (fun e => e.metadata.uniqueLoaderId ≠ uid)).length
      + l.countP (fun e => e.metadata.uniqueLoaderId == uid) = l.length := by
  induction l with
  | nil => rfl
  | cons x xs ih =>
    rw [List.filter_cons, List.countP_cons, List.length_cons]
    by_cases h : x.metadata.uniqueLoaderId = uid
    · rw [if_neg (by simp [h])]
      have hb : (x.metadata.uniqueLoaderId == uid) = true := by simpa using h
      rw [hb]
      simp only [if_true]
      omega
    · rw [if_pos (by simp [h])]
      have hb : (x.metadata.uniqueLoaderId == uid) = false := by simpa using h
      rw [hb]
      simp only [List.length_cons]
      rw [if_neg (by simp)]
      omega

/-- With no cache configured, `addLoader` skips the re-ingestion check:
the store is extended by the batch-loaded chunks and `entriesAdded` is the
reported insert total. -/
theorem addLoader_cache_none (env : Env) (st : AppState) (loader : Loader)
    (h : st.cache = none) :
    (addLoader env st loader).1.db
        = (batchLoadChunks env loader.uniqueId loader.chunks st.db).db
      ∧ (addLoader env st loader).2.entriesAdded
        = (batchLoadChunks env loader.uniqueId loader.chunks st.db).newInserts := by
  obtain ⟨sdb, scache, sloaders⟩ := st
  dsimp only at h
  subst h
  exact ⟨rfl, rfl⟩

/-- With a cache configured but no record for the loader's id, `addLoader`
skips the re-ingestion deletion and records the residual batch length. -/
theorem addLoader_cache_noRecord (env : Env) (st : AppState) (loader : Loader)
    (c : Cache) (h : st.cache = some c)
    (hhas : cacheHasLoader c loader.uniqueId = false) :
    (addLoader env st loader).1.db
        = (batchLoadChunks env loader.uniqueId loader.chunks st.db).db
      ∧ (addLoader env st loader).2.entriesAdded
        = (batchLoadChunks env loader.uniqueId loader.chunks st.db).newInserts
      ∧ (addLoader env st loader).1.cache
        = some (cacheAddLoader c loader.uniqueId
            (batchLoadChunks env loader.uniqueId loader.chunks
              st.db).formattedChunks.length) := by
  obtain ⟨sdb, scache, sloaders⟩ := st
  dsimp only at h
  subst h
  unfold addLoader
  dsimp only
  rw [hhas]
  exact ⟨rfl, rfl, rfl⟩

/-- With a cache record of positive count and a successfully-deleting
store, `addLoader` first removes the loader's previous entries and then
batch-loads the new chunks onto the filtered store. -/
theorem addLoader_cache_reingest (env : Env) (st : AppState) (loader : Loader)
    (c : Cache) (P : Nat) (h : st.cache = some c)
    (hget : cacheGetLoader c loader.uniqueId = some P) (hP : 0 < P)
    (hok : env.deleteOk loader.uniqueId = true) :
    (addLoader env st loader).1.db
        = (batchLoadChunks env loader.uniqueId loader.chunks
            (st.db.filter
              (fun e => e.metadata.uniqueLoaderId ≠ loader.uniqueId))).db
      ∧ (addLoader env st loader).2.entriesAdded
        = (batchLoadChunks env loader.uniqueId loader.chunks
            (st.db.filter
              (fun e => e.metadata.uniqueLoaderId ≠ loader.uniqueId))).newInserts := by
  have hhas := cacheGetLoader_hasLoader c loader.uniqueId P hget
  obtain ⟨sdb, scache, sloaders⟩ := st
  dsimp only at h
  subst h
  unfold addLoader
  dsimp only
  rw [hhas, hget]
  rw [if_pos rfl]
  dsimp only [Option.getD_some]
  rw [if_pos hP]
  unfold deleteLoader dbDeleteKeys
  rw [hok]
  rw [if_pos rfl]
  simp only [Bool.not_true]
  rw [if_neg (by simp)]
  exact ⟨rfl, rfl⟩

/-! ### Concrete fixtures for witnesses and counterexamples -/

/-- A base environment with stubbed collaborators, batch constant 2,
top-K 2 and relevance cutoff 1/2. -/
def envBase : Env :=
  { batchSize := 2, searchResultCount := 2, embeddingRelevanceCutOff := mkRat 1 2
    queryTemplate := "T", embed := fun _ => [], embedQuery := fun _ => []
    similaritySearch := fun _ _ => [], deleteOk := fun _ => true
    reranker := none, cleanString := id, modelQuery := fun _ _ _ _ => "answer" }

def sampleChunk (s src : String) : LoaderChunk :=
  { pageContent := s, metadata := { source := src, extra := [] } }

def sampleFrag (content src id : String) (score : Rat) : ExtractChunkData :=
  { pageContent := content
    metadata := { base := { source := src, extra := [] }, uniqueLoaderId := "L", id := id }
    score := score }

def loaderC1 : Loader :=
  { uniqueId := "L", chunks := [sampleChunk "a" "s", sampleChunk "b" "s"]
    canIncrementallyLoad := false }

def stC1 : AppState := { db := [], cache := some [], loaders := [] }

/-- Two retrieval results with the same `pageContent` but different
sources, both above the cutoff. -/
def dupFragA : ExtractChunkData := sampleFrag "p" "s1" "L_0" (mkRat 9 10)

def dupFragB : ExtractChunkData := sampleFrag "p" "s2" "L_1" (mkRat 8 10)

def envC2 : Env := { envBase with similaritySearch := fun _ _ => [dupFragA, dupFragB] }

def loaderC3 : Loader := { uniqueId := "a", chunks := [], canIncrementallyLoad := false }

/-- An environment whose vector store reports failure for every
`deleteKeys` call. -/
def envC3 : Env := { envBase with deleteOk := fun _ => false }

def stC3 : AppState := { db := [], cache := some [("a", 1)], loaders := [loaderC3] }

def loaderC4 : Loader :=
  { uniqueId := "L", chunks := [sampleChunk "x" "s"], canIncrementallyLoad := false }

def oldEntryC4 : InsertChunkData :=
  { pageContent := "old", vector := []
    metadata := { base := { source := "s", extra := [] }, uniqueLoaderId := "L", id := "L_0" } }

def stC4 : AppState := { db := [oldEntryC4], cache := some [("L", 1)], loaders := [] }

def fragC5A : ExtractChunkData := sampleFrag "a" "s" "L_0" (mkRat 9 10)

def fragC5B : ExtractChunkData := sampleFrag "b" "s" "L_1" (mkRat 6 10)

def fragC5C : ExtractChunkData := sampleFrag "c" "s" "L_2" (mkRat 4 10)

def fragC5D : ExtractChunkData := sampleFrag "d" "s" "L_3" (mkRat 3 10)

def envC5 : Env :=
  { envBase with similaritySearch := fun _ _ => [fragC5A, fragC5B, fragC5C, fragC5D] }

def loaderC6 : Loader :=
  { uniqueId := "M"
    chunks := [sampleChunk "u" "s", sampleChunk "v" "s", sampleChunk "w" "s"]
    canIncrementallyLoad := false }

def stC6 : AppState := { db := [], cache := none, loaders := [] }

/-! ### The claims -/

/-- **C1** (code bug). The claim says the cache's LoaderRecord stores the
total number of fragments formatted during the run. The code stores
`formattedChunks.length`, which at the `return` of `batchLoadChunks` is
only the final partial batch (the variable is reset at every mid-stream
flush): with batch constant 2 and a loader yielding 2 fragments, both
fragments are formatted and inserted (`entriesAdded = 2`) yet the
LoaderRecord stores 0, not 2. -/
theorem ragClaim1 :
    loaderC1.chunks.length = 2
      ∧ envBase.batchSize = 2
      ∧ (addLoader envBase stC1 loaderC1).2.entriesAdded = 2
      ∧ (addLoader envBase stC1 loaderC1).1.cache = some [("L", 0)] := by
  refine ⟨rfl, rfl, by decide, by decide⟩

/-- **C2** (counterexample). With two retrieved fragments sharing
`pageContent` `"p"` (different sources, scores 0.9 and 0.8, both kept
post-truncation), `getContext` returns the **second** fragment, not the
first: JavaScript `Map.set` keeps the first key position but overwrites
the value, so the claim "the first occurrence is the one retained" is
false. -/
theorem ragClaim2_counterexample :
    getEmbeddings envC2 (envC2.cleanString "q") = [dupFragA, dupFragB]
      ∧ dupFragA.pageContent = dupFragB.pageContent
      ∧ getContext envC2 "q" = [dupFragB]
      ∧ dupFragB ≠ dupFragA := by
  refine ⟨by decide, rfl, by decide, by decide⟩

/-- **C2** (amended). `getContext` deduplicates by exact `pageContent`
equality: no two returned fragments share a `pageContent`, the returned
`pageContent`s are the distinct ones of the post-truncation list in
first-seen order, and the fragment retained for each `pageContent` is the
**last** occurrence in the post-truncation order (not the first). -/
theorem ragClaim2 (env : Env) (q : String) :
    ((getContext env q).map (fun c => c.pageContent)).Nodup
      ∧ (getContext env q).map (fun c => c.pageContent)
          = jsSetDedup
              ((getEmbeddings env (env.cleanString q)).map (fun c => c.pageContent))
      ∧ ∀ c ∈ getContext env q,
          ((getEmbeddings env (env.cleanString q)).filter
            (fun e => e.pageContent == c.pageContent)).getLast? = some c := by
  have hctx : getContext env q
      = jsMapValuesDedup (getEmbeddings env (env.cleanString q)) := rfl
  refine ⟨?_, ?_, ?_⟩
  · rw [hctx, jsMapValuesDedup_pageContents]
    exact jsSetDedup_nodup _
  · rw [hctx, jsMapValuesDedup_pageContents]
  · intro c hc
    rw [hctx] at hc
    exact jsMapValuesDedup_last _ c hc

theorem ragClaim2_witness :
    ((getEmbeddings envC2 (envC2.cleanString "q")).filter
      (fun e => e.pageContent == dupFragB.pageContent)).getLast? = some dupFragB :=
  (ragClaim2 envC2 "q").2.2 dupFragB (by decide)

/-- **C3** (counterexample). With a vector store that reports failure for
`deleteKeys`, `deleteLoader(id, true)` returns `false` — yet the loader is
still dropped from the tracked set, contradicting "only on success does it
... drop the loader from the orchestrator's tracked loader set". -/
theorem ragClaim3_counterexample :
    (deleteLoader envC3 stC3 "a" true).2.1 = false
      ∧ (deleteLoader envC3 stC3 "a" true).1.loaders = []
      ∧ stC3.loaders = [loaderC3] := by
  refine ⟨by decide, by decide, rfl⟩

/-- **C3** (amended). `deleteLoader(id, true)` asks the vector store to
delete the entries tagged with the loader id and returns the store's
result; only on success does it remove the LoaderRecord from the cache;
the loader is dropped from the tracked set **unconditionally**, whether or
not the deletion succeeded. -/
theorem ragClaim3 (env : Env) (st : AppState) (id : String) (c : Cache)
    (h : st.cache = some c) :
    (deleteLoader env st id true).2.1 = env.deleteOk id
      ∧ (env.deleteOk id = true →
          (deleteLoader env st id true).1.db
              = st.db.filter (fun e => e.metadata.uniqueLoaderId ≠ id)
            ∧ (deleteLoader env st id true).1.cache = some (cacheDeleteLoader c id))
      ∧ (env.deleteOk id = false →
          (deleteLoader env st id true).1.db = st.db
            ∧ (deleteLoader env st id true).1.cache = some c)
      ∧ (deleteLoader env st id true).1.loaders
          = st.loaders.filter (fun x => x.uniqueId ≠ id) := by
  obtain ⟨sdb, scache, sloaders⟩ := st
  dsimp only at h
  subst h
  unfold deleteLoader dbDeleteKeys
  cases hok : env.deleteOk id with
  | true => simp [hok]
  | false => simp [hok]

theorem ragClaim3_witness :
    (deleteLoader envC3 stC3 "a" true).2.1 = envC3.deleteOk "a" :=
  (ragClaim3 envC3 stC3 "a" [("a", 1)] rfl).1

/-- **C4** (confirmed). Re-registering a loader id whose cache record
holds count `P > 0`, with exactly `P` entries tagged with that id in the
store and a successfully-deleting store, first removes those `P` entries
and then inserts the `M` formatted new fragments: the final store is the
filtered store followed by the new inserts, and the net count change is
`M - P`. -/
theorem ragClaim4 (env : Env) (st : AppState) (loader : Loader) (c : Cache) (P : Nat)
    (h : st.cache = some c)
    (hget : cacheGetLoader c loader.uniqueId = some P)
    (hP : 0 < P)
    (hok : env.deleteOk loader.uniqueId = true)
    (hcount : st.db.countP
        (fun e => e.metadata.uniqueLoaderId == loader.uniqueId) = P) :
    (addLoader env st loader).1.db
        = st.db.filter (fun e => e.metadata.uniqueLoaderId ≠ loader.uniqueId)
          ++ (formatSeq loader.uniqueId 0 loader.chunks).map (toInsertData env)
      ∧ (addLoader env st loader).1.db.length + P
        = st.db.length + loader.chunks.length := by
  obtain ⟨hdb, hentries⟩ := addLoader_cache_reingest env st loader c P h hget hP hok
  constructor
  · rw [hdb, batchLoadChunks_db]
  · rw [hdb, batchLoadChunks_db_length]
    have hfl := db_filter_length st.db loader.uniqueId
    omega

theorem ragClaim4_witness :
    (addLoader envBase stC4 loaderC4).1.db.length + 1
      = stC4.db.length + loaderC4.chunks.length :=
  (ragClaim4 envBase stC4 loaderC4 [("L", 1)] 1 rfl (by decide) (by decide)
    rfl (by decide)).2

/-- **C5** (confirmed). For every query the retrieval pipeline returns at
most `searchResultCount` fragments, every returned fragment scores
strictly above the relevance cutoff, and the results are in descending
score order; and in the concrete scenario with cutoff 0.5, top-K 2 and
search results scored 0.9, 0.6, 0.4, 0.3, it returns exactly the
fragments scored 0.9 and 0.6, in that order. -/
theorem ragClaim5 :
    (∀ (env : Env) (q : String),
        (getEmbeddings env q).length ≤ env.searchResultCount
          ∧ (∀ c ∈ getEmbeddings env q, env.embeddingRelevanceCutOff < c.score)
          ∧ (getEmbeddings env q).Pairwise (fun a b => b.score ≤ a.score))
      ∧ envC5.embeddingRelevanceCutOff = 0.5
      ∧ envC5.searchResultCount = 2
      ∧ (envC5.similaritySearch (envC5.embedQuery "q")
            (envC5.searchResultCount + 10)).map (fun c => c.score)
          = [0.9, 0.6, 0.4, 0.3]
      ∧ getEmbeddings envC5 "q" = [fragC5A, fragC5B]
      ∧ fragC5A.score = 0.9 ∧ fragC5B.score = 0.6 := by
  refine ⟨?_, ?_, rfl, ?_, by decide, ?_, ?_⟩
  · intro env q
    refine ⟨?_, ?_, ?_⟩
    · unfold getEmbeddings
      exact List.length_take_le _ _
    · intro c hc
      unfold getEmbeddings at hc
      have hs := (List.take_sublist _ _).mem hc
      rw [mem_sortByScoreDesc] at hs
      have hf := (List.mem_filter.mp hs).2
      exact of_decide_eq_true hf
    · unfold getEmbeddings
      exact (pairwise_sortByScoreDesc _).sublist (List.take_sublist _ _)
  · show mkRat 1 2 = (0.5 : Rat)
    norm_num [mkRat]
  · show [mkRat 9 10, mkRat 6 10, mkRat 4 10, mkRat 3 10]
        = [(0.9 : Rat), 0.6, 0.4, 0.3]
    norm_num [mkRat]
  · show mkRat 9 10 = (0.9 : Rat)
    norm_num [mkRat]
  · show mkRat 6 10 = (0.6 : Rat)
    norm_num [mkRat]

theorem ragClaim5_witness :
    envC5.embeddingRelevanceCutOff < fragC5A.score :=
  (ragClaim5.1 envC5 "q").2.1 fragC5A (by decide)

/-- **C6** (confirmed). With no prior cache record for the loader's id
(no cache, or a cache without that id), `addLoader` returns
`entriesAdded = N` for a loader yielding `N` fragments, and the store's
size grows by exactly `N` (under the `insertChunks` contract). -/
theorem ragClaim6 (env : Env) (st : AppState) (loader : Loader)
    (h : st.cache = none
      ∨ ∃ c, st.cache = some c ∧ cacheHasLoader c loader.uniqueId = false) :
    (addLoader env st loader).2.entriesAdded = loader.chunks.length
      ∧ (addLoader env st loader).1.db.length
        = st.db.length + loader.chunks.length := by
  rcases h with h | ⟨c, hc, hhas⟩
  · obtain ⟨hdb, hent⟩ := addLoader_cache_none env st loader h
    refine ⟨hent.trans (batchLoadChunks_newInserts env loader.uniqueId loader.chunks st.db), ?_⟩
    rw [hdb, batchLoadChunks_db_length]
  · obtain ⟨hdb, hent, _⟩ := addLoader_cache_noRecord env st loader c hc hhas
    refine ⟨hent.trans (batchLoadChunks_newInserts env loader.uniqueId loader.chunks st.db), ?_⟩
    rw [hdb, batchLoadChunks_db_length]

theorem ragClaim6_witness :
    (addLoader envBase stC6 loaderC6).2.entriesAdded = loaderC6.chunks.length
      ∧ (addLoader envBase stC6 loaderC6).1.db.length
        = stC6.db.length + loaderC6.chunks.length :=
  ragClaim6 envBase stC6 loaderC6 (Or.inl rfl)

/-- **C7** (confirmed). Unconfirmed destructive operations are pure
no-ops: `deleteLoader(id, false)` and `deleteAllEmbeddings(false)` leave
the state (vector store, cache and tracked loaders) untouched, return
`false`, emit exactly the warning message, and (being total functions)
never raise. -/
theorem ragClaim7 (env : Env) (st : AppState) (id : String) :
    deleteLoader env st id false
        = (st, false,
            ["Delete embeddings from loader called without confirmation. No action taken."])
      ∧ deleteAllEmbeddings st false
        = (st, false,
            ["Reset embeddings called without confirmation. No action taken."]) :=
  ⟨rfl, rfl⟩

/-- **C8** (confirmed). The `sources` of a query response are the distinct
`metadata.source` values of the post-filter, post-dedup context, in
first-occurrence order (no duplicates, same membership, an order-preserving
sublist), and the generation model receives exactly that context. -/
theorem ragClaim8 (env : Env) (q : String) (cid : Option String) :
    (appQuery env q cid).sources
        = jsSetDedup ((getContext env q).map (fun chunk => chunk.metadata.base.source))
      ∧ (appQuery env q cid).sources.Nodup
      ∧ (∀ s, s ∈ (appQuery env q cid).sources
          ↔ s ∈ (getContext env q).map (fun chunk => chunk.metadata.base.source))
      ∧ List.Sublist (appQuery env q cid).sources
          ((getContext env q).map (fun chunk => chunk.metadata.base.source))
      ∧ (appQuery env q cid).result
        = env.modelQuery env.queryTemplate q (getContext env q) cid :=
  ⟨rfl, jsSetDedup_nodup _, fun s => jsSetDedup_mem _ s, jsSetDedup_sublist _, rfl⟩

/-- **C9** (confirmed). The constructor checks its configuration
synchronously: a missing generation model raises `Model not set`, and a
present model with a missing vector store raises `VectorDb not set`; in
either case no orchestrator state is produced, so no operation can run. -/
theorem ragClaim9 (b : Builder) :
    (b.model = none → ragApplicationConstructor b = Except.error "Model not set")
      ∧ (b.model ≠ none → b.vectorDb = none →
          ragApplicationConstructor b = Except.error "VectorDb not set") := by
  constructor
  · intro h
    unfold ragApplicationConstructor
    rw [h]
    rfl
  · intro h1 h2
    unfold ragApplicationConstructor
    have hm : b.model.isNone = false := by
      cases hb : b.model with
      | none => exact absurd hb h1
      | some m => rfl
    rw [hm, h2]
    rfl

theorem ragClaim9_witness :
    ragApplicationConstructor
        { cache := none, model := none, vectorDb := some [], loaders := [] }
      = Except.error "Model not set" :=
  (ragClaim9 { cache := none, model := none, vectorDb := some [], loaders := [] }).1 rfl

/-- **C10** (confirmed). Every run of the batch-load procedure restarts
the fragment counter at 0: the ids stamped onto the chunks a run appends
to the store are exactly `uid_0, uid_1, …` — so position `j` of an
incremental-notification run receives the same id as position `j` of any
initial run for the same loader, and ids are not unique across runs. -/
theorem ragClaim10 :
    (∀ (env : Env) (uid : String) (chunks : List LoaderChunk)
        (db : List InsertChunkData),
        ((batchLoadChunks env uid chunks db).db.drop db.length).map
            (fun e => e.metadata.id)
          = (List.range chunks.length).map (getChunkUniqueId uid))
      ∧ (∀ (env env' : Env) (uid : String) (chunks chunks' : List LoaderChunk)
            (db db' : List InsertChunkData) (j : Nat),
          j < chunks.length → j < chunks'.length →
            (((batchLoadChunks env uid chunks db).db.drop db.length).map
                (fun e => e.metadata.id)).get? j
              = (((incrementalLoader env' uid chunks' db').1.drop db'.length).map
                  (fun e => e.metadata.id)).get? j) := by
  have key : ∀ (env : Env) (uid : String) (chunks : List LoaderChunk)
      (db : List InsertChunkData),
      ((batchLoadChunks env uid chunks db).db.drop db.length).map
          (fun e => e.metadata.id)
        = (List.range chunks.length).map (getChunkUniqueId uid) := by
    intro env uid chunks db
    rw [batchLoadChunks_db, List.drop_left, List.map_map]
    have hcomp : (fun e : InsertChunkData => e.metadata.id) ∘ toInsertData env
        = fun c : Chunk => c.metadata.id := rfl
    rw [hcomp, formatSeq_map_id]
    apply List.map_congr_left
    intro j hj
    rw [Nat.zero_add]
  refine ⟨key, ?_⟩
  intro env env' uid chunks chunks' db db' j hj hj'
  unfold incrementalLoader
  dsimp only
  rw [key, key, List.get?_map, List.get?_map, List.get?_range hj, List.get?_range hj']

theorem ragClaim10_witness :
    (((batchLoadChunks envBase "L" [sampleChunk "a" "s"] []).db.drop 0).map
        (fun e => e.metadata.id)).get? 0
      = (((incrementalLoader envBase "L" [sampleChunk "b" "s"] []).1.drop 0).map
          (fun e => e.metadata.id)).get? 0 := by
  have h := ragClaim10.2 envBase envBase "L" [sampleChunk "a" "s"] [sampleChunk "b" "s"]
    [] [] 0 (by decide) (by decide)
  simpa using h

end RagApp
